import Mathlib

/-!
Verification development for the Mimori_script widgets (birthday merge and
date-bucket indexer from Birthday.js, the TTL fetch cache, and the event
countdown subsystem from Events2.js / Utils.js).  JavaScript objects used as
string- or number-keyed dictionaries are embedded as association lists in
property-insertion order; `Option` models absent/`undefined` fields; machine
time instants are embedded as `Int` (JS millisecond timestamps).
-/

namespace Mimori

/-! ### Association lists modeling JS object property access

`alistGet m k` is `m[k]` (as an `Option`), `alistSet m k v` is `m[k] = v`
(replace in place when the key exists, append otherwise, matching JS property
insertion order), `alistErase m k` is `delete m[k]`, and `alistKeys` is
`Object.keys`. -/

def alistGet {κ α : Type} [DecidableEq κ] : List (κ × α) → κ → Option α
  | [], _ => none
  | (k', v) :: rest, k => if k' = k then some v else alistGet rest k

def alistSet {κ α : Type} [DecidableEq κ] : List (κ × α) → κ → α → List (κ × α)
  | [], k, v => [(k, v)]
  | (k', v') :: rest, k, v =>
      if k' = k then (k', v) :: rest else (k', v') :: alistSet rest k v

def alistErase {κ α : Type} [DecidableEq κ] : List (κ × α) → κ → List (κ × α)
  | [], _ => []
  | (k', v') :: rest, k => if k' = k then rest else (k', v') :: alistErase rest k

def alistKeys {κ α : Type} (m : List (κ × α)) : List κ := m.map Prod.fst


/-! ### Dataset merger (Birthday.js `fetchBirthdays`, custom-data loop)

`UnifiedStudent` is a record of the working set `processedData`; the four
fields copied by the `Object.assign` call plus the `Id` field consulted by the
default image URL.  `CustomStudent` is one element of the custom list; an
absent or empty `Id` is falsy in JS and means "no identifier". -/

structure UnifiedStudent where
  FamilyName : Option String
  PersonalName : Option String
  BirthDay : Option String
  DirectImage : Option String
  Id : Option String
deriving DecidableEq

structure CustomStudent where
  Id : Option String
  FamilyName : Option String
  PersonalName : Option String
  BirthDay : Option String
  DirectImage : Option String
deriving DecidableEq

/-- JS truthiness of `customStudent.Id`: `undefined` and `""` are falsy. -/
def idTruthy : Option String → Bool
  | none => false
  | some s => s ≠ ""

/-- The record `{}` created for a newly added custom student. -/
def emptyStudent : UnifiedStudent := ⟨none, none, none, none, none⟩

/-- `Object.assign(targetStudent, \x7bFamilyName, PersonalName, BirthDay,
DirectImage\x7d)`: the four listed fields are always written (also when the
custom value is `undefined`), every other field is left untouched. -/
def applyCustom (s : UnifiedStudent) (c : CustomStudent) : UnifiedStudent :=
  { s with
    FamilyName := c.FamilyName
    PersonalName := c.PersonalName
    BirthDay := c.BirthDay
    DirectImage := c.DirectImage }

/-- The `console.warn` message for a custom record whose identifier matches no
key of the working set. -/
def warnMsg (sid : String) : String :=
  "Custom data references nonexistent student ID: " ++ sid

/-- One iteration of the `for (const customStudent of customData)` loop,
threading the working set together with the warnings logged so far. -/
def mergeStep (acc : List (String × UnifiedStudent) × List String)
    (c : CustomStudent) : List (String × UnifiedStudent) × List String :=
  if idTruthy c.Id then
    let sid := c.Id.getD ""
    match alistGet acc.1 sid with
    | none => (acc.1, acc.2 ++ [warnMsg sid])
    | some t => (alistSet acc.1 sid (applyCustom t c), acc.2)
  else
    let customId := "DVDOOM_" ++ toString acc.1.length
    (alistSet acc.1 customId (applyCustom emptyStudent c), acc.2)

/-- The merge of the official keyed dataset with the custom list: a working
copy of the official map folded through the custom-data loop.  Returns the
unified working set and the warnings logged along the way. -/
def fetchMerge (official : List (String × UnifiedStudent))
    (customs : List CustomStudent) : List (String × UnifiedStudent) × List String :=
  customs.foldl mergeStep (official, [])

/-! ### Date-bucket indexer (Birthday.js `fetchBirthdays`, reduce step)

The reduce over `Object.values(processedData)` builds a month-keyed map of
day-keyed maps of display entries.  The birthday field is matched against the
unanchored regex `(\d+)\/(\d+)`: the leftmost maximal digit run immediately
followed by a slash and a further digit run. -/

structure DisplayEntry where
  name : String
  images : List String
deriving DecidableEq

/-- Decimal value of a digit run, as computed by JS `Number` on the capture. -/
def digitsToNat (cs : List Char) : Nat :=
  cs.foldl (fun a c => 10 * a + (c.toNat - '0'.toNat)) 0

/-- Leftmost match of the unanchored regex `(\d+)\/(\d+)`: at each start
position a greedy digit run must be immediately followed by a slash and at
least one digit; otherwise the start position advances by one character. -/
def findBirthdayPair : List Char → Option (Nat × Nat)
  | [] => none
  | c :: rest =>
      if c.isDigit then
        match (c :: rest).dropWhile Char.isDigit with
        | '/' :: after =>
            match after.takeWhile Char.isDigit with
            | [] => findBirthdayPair rest
            | d :: ds =>
                some (digitsToNat ((c :: rest).takeWhile Char.isDigit),
                  digitsToNat (d :: ds))
        | _ => findBirthdayPair rest
      else findBirthdayPair rest

/-- `student.BirthDay?.match(/(\d+)\/(\d+)/)` mapped through `Number`. -/
def parseBirthday : Option String → Option (Nat × Nat)
  | none => none
  | some s => findBirthdayPair s.data

/-- JS template-literal interpolation of a possibly `undefined` string. -/
def interpOpt : Option String → String
  | some s => s
  | none => "undefined"

/-- The computed display name: the interpolation of
`\x7b$student.FamilyName\x7d $\x7bstudent.PersonalName\x7d`. -/
def displayName (s : UnifiedStudent) : String :=
  interpOpt s.FamilyName ++ " " ++ interpOpt s.PersonalName

/-- `student.DirectImage || default`: the JS `||` falls through on the falsy
empty string as well as on `undefined`. -/
def imageOf (s : UnifiedStudent) : String :=
  match s.DirectImage with
  | some img =>
      if img = "" then
        "https://schaledb.com/images/student/collection/" ++ interpOpt s.Id ++ ".webp"
      else img
  | none =>
      "https://schaledb.com/images/student/collection/" ++ interpOpt s.Id ++ ".webp"

/-- The in-bucket update: scan for the first entry with an identical name and
push the image onto it unless already present; append a fresh single-image
entry when no name matches. -/
def addImage (l : List DisplayEntry) (name img : String) : List DisplayEntry :=
  match l with
  | [] => [⟨name, [img]⟩]
  | e :: rest =>
      if e.name = name then
        (if img ∈ e.images then e else { e with images := e.images ++ [img] }) :: rest
      else e :: addImage rest name img

/-- A month-to-day-to-entries bucket structure (JS nested objects). -/
abbrev Buckets := List (Nat × List (Nat × List DisplayEntry))

/-- The bucket `acc[month][day]`, defaulting to the empty list. -/
def getBucket (b : Buckets) (month day : Nat) : List DisplayEntry :=
  (alistGet ((alistGet b month).getD []) day).getD []

/-- One iteration of the reduce body: skip records whose birthday does not
match, otherwise update the `[month][day]` bucket. -/
def indexStep (acc : Buckets) (s : UnifiedStudent) : Buckets :=
  match parseBirthday s.BirthDay with
  | none => acc
  | some (month, day) =>
      let monthMap := (alistGet acc month).getD []
      let dayList := (alistGet monthMap day).getD []
      alistSet acc month
        (alistSet monthMap day (addImage dayList (displayName s) (imageOf s)))

/-- The full index over the unified record values in enumeration order. -/
def birthdayIndex (students : List UnifiedStudent) : Buckets :=
  students.foldl indexStep []

/-! ### TTL fetch cache (Birthday.js `cachedFetch`)

A call is embedded as a pure function of the cache state, the current instant
(`Date.now()`), and the outcome of the single `fetch` the call would perform
if it reaches the network.  The `fetched` flag records whether `fetch` was
invoked. -/

inductive FetchError where
  | network : FetchError
  | http : Nat → FetchError
  | parse : FetchError
deriving DecidableEq

/-- An HTTP response: its status and the outcome of `response.json()`
(`none` = the body failed to parse). -/
structure Response (P : Type) where
  status : Nat
  body : Option P
deriving DecidableEq

/-- `response.ok`: status in the inclusive range 200–299. -/
def respOk {P : Type} (r : Response P) : Bool :=
  200 ≤ r.status && r.status ≤ 299

structure CacheEntry (P : Type) where
  timestamp : Int
  data : P
deriving DecidableEq

structure FetchOutcome (P : Type) where
  result : Except FetchError P
  cache : List (String × CacheEntry P)
  fetched : Bool

/-- The fetch-and-store tail of `cachedFetch`: check `response.ok`, parse the
body, store `\x7btimestamp: Date.now(), data\x7d` on success only. -/
def fetchFresh {P : Type} (cache : List (String × CacheEntry P)) (key : String)
    (now : Int) (response : Except Unit (Response P)) : FetchOutcome P :=
  match response with
  | .error _ => ⟨.error .network, cache, true⟩
  | .ok r =>
      if respOk r then
        match r.body with
        | some d => ⟨.ok d, alistSet cache key ⟨now, d⟩, true⟩
        | none => ⟨.error .parse, cache, true⟩
      else ⟨.error (.http r.status), cache, true⟩

/-- `cachedFetch(url, options)` for one call.  `enabled` is
`CONFIG.CACHE.ENABLED`; with caching disabled the code returns
`response.json()` directly, with no `response.ok` check and no store.  With
caching enabled, a cached entry younger than the TTL is returned without
fetching; an entry at or past the TTL is deleted and a fresh fetch runs. -/
def cachedFetch {P : Type} (enabled : Bool) (cache : List (String × CacheEntry P))
    (key : String) (ttl now : Int) (response : Except Unit (Response P)) :
    FetchOutcome P :=
  if !enabled then
    match response with
    | .error _ => ⟨.error .network, cache, true⟩
    | .ok r =>
        match r.body with
        | some d => ⟨.ok d, cache, true⟩
        | none => ⟨.error .parse, cache, true⟩
  else
    match alistGet cache key with
    | some e =>
        if now - e.timestamp < ttl then ⟨.ok e.data, cache, false⟩
        else fetchFresh (alistErase cache key) key now response
    | none => fetchFresh cache key now response

/-! ### Countdown display (Events2.js `getTimerDisplayText`,
`formatTimeRemaining`; Utils.js has the same logic as `calculateTimeLeft` /
`formatDuration`)

Instants are JS millisecond timestamps (`Int`); `formatTimeRemaining` is only
ever applied to the positive differences `start - now` / `end - now`, so it is
embedded on `Nat`, where JS `Math.floor` division and `%` coincide with
natural division and modulus. -/

/-- `formatTimeRemaining(duration)`: floor-decompose milliseconds into days,
hours, minutes; the days component is printed only when positive. -/
def formatTimeRemaining (duration : Nat) : String :=
  let days := duration / (1000 * 60 * 60 * 24)
  let hours := duration % (1000 * 60 * 60 * 24) / (1000 * 60 * 60)
  let minutes := duration % (1000 * 60 * 60) / (1000 * 60)
  (if days > 0 then toString days ++ "d " else "")
    ++ toString hours ++ "h " ++ toString minutes ++ "m"

/-- `getTimerDisplayText(currentTime, startTime, endTime)`. -/
def getTimerDisplayText (currentTime startTime endTime : Int) : String :=
  if currentTime < startTime then
    "Starts in: " ++ formatTimeRemaining (startTime - currentTime).toNat
  else if currentTime < endTime then
    "Time Left: " ++ formatTimeRemaining (endTime - currentTime).toNat
  else
    "Event Ended"

/-! ### Expiry check and event skipping (Utils.js `hasExpired`,
Events2.js `processEventPair`)

Only the numeric branch of `hasExpired` is relevant here: a number below
`1e12` is taken to be Unix seconds and scaled by 1000 (the string branch goes
through `Date` parsing and is out of scope of the claims).  `Date.now()` is
passed explicitly. -/

/-- `hasExpired(endTime)` on a numeric end time, evaluated at instant `now`. -/
def hasExpired (endTime now : Int) : Bool :=
  (if endTime < 10 ^ 12 then endTime * 1000 else endTime) ≤ now

/-- An event entry as consumed by `processEventPair`; only the numeric end
time drives the expiry skip, the rest of the record is opaque payload that
the abstract `render` turns into HTML. -/
structure EventData where
  endTime : Int
  payload : String
deriving DecidableEq

/-- The accumulation loop of `processEventPair`: expired events are skipped
(`continue`) and contribute nothing, the others append their rendered card. -/
def processEventPair (render : EventData → String) (entries : List EventData)
    (now : Int) : String :=
  entries.foldl
    (fun acc e => if hasExpired e.endTime now then acc else acc ++ render e) ""

/-! ### Countdown timer tick loop (Events2.js `updateEventTimer`,
Utils.js `createCountdownTimer`)

The interval machinery is embedded as a step function on a loop state: whether
the interval is still scheduled (`active`), how many times the update function
has been invoked, and whether the handle is still in the `timerIds` tracking
array.  Each tick's environment supplies whether `document.getElementById`
finds the display target and what the computed display text would be. -/

structure TimerLoopState where
  active : Bool
  invocations : Nat
  tracked : Bool
deriving DecidableEq

/-- Result of one call to Events2.js `updateEventTimer`: either the display
text was written and the call returned normally, or the call reached one of
its two `cleanupTimer(timerId, timerIds)` lines.  The identifier `timerIds`
is not in scope inside `updateEventTimer` (it is only ever a parameter of the
other functions), so evaluating that argument throws a `ReferenceError`
before `cleanupTimer` — and hence `clearInterval` — can run.  The optional
string records any text written before the throw. -/
inductive UpdateCallResult where
  | wrote (text : String) : UpdateCallResult
  | refError (written : Option String) : UpdateCallResult
deriving DecidableEq

/-- One call of Events2.js `updateEventTimer`, given whether
`document.getElementById` finds the display target and the computed display
text. -/
def updateEventTimerCall (targetPresent : Bool) (display : String) :
    UpdateCallResult :=
  if !targetPresent then .refError none
  else if display = "Event Ended" then .refError (some display)
  else .wrote display

/-- One tick of the Events2.js interval calling `updateEventTimer`.  An
exception thrown by an interval callback does not cancel the interval, and
`updateEventTimerCall` never returns through a completed cleanup, so the
loop state changes only by counting the invocation. -/
def eventsTimerTick (targetPresent : Bool) (display : String)
    (st : TimerLoopState) : TimerLoopState :=
  if st.active then
    let st' := { st with invocations := st.invocations + 1 }
    match updateEventTimerCall targetPresent display with
    | .wrote _ => st'
    | .refError _ => st'
  else st

/-- One tick of the Utils.js interval calling `updateTimer`: a missing target
or an ended display clears the interval, but nothing is ever removed from the
`timerIds` tracking array (`createCountdownTimer` only pushes). -/
def utilsTimerTick (targetPresent : Bool) (display : String)
    (st : TimerLoopState) : TimerLoopState :=
  if st.active then
    let st' := { st with invocations := st.invocations + 1 }
    if targetPresent then
      if display = "Event Ended" then { st' with active := false } else st'
    else { st' with active := false }
  else st

/-- The freshly registered timer: interval scheduled, handle pushed onto
`timerIds`, no tick yet. -/
def initialTimerState : TimerLoopState := ⟨true, 0, true⟩

/-- Run `n` scheduler ticks of a tick function under a constant environment. -/
def runTicks (tick : Bool → String → TimerLoopState → TimerLoopState)
    (targetPresent : Bool) (display : String) : Nat → TimerLoopState → TimerLoopState
  | 0, st => st
  | n + 1, st => runTicks tick targetPresent display n (tick targetPresent display st)

/-! ### Merge lemmas -/

/-- Whether a custom record carries `key` as its (truthy) identifier. -/
def targetsKey (key : String) (c : CustomStudent) : Bool :=
  idTruthy c.Id && (c.Id.getD "" == key)

section AlistLemmas

variable {κ α : Type} [DecidableEq κ]

@[simp] theorem alistGet_nil (k : κ) : alistGet ([] : List (κ × α)) k = none := rfl

theorem alistGet_set_self (m : List (κ × α)) (k : κ) (v : α) :
    alistGet (alistSet m k v) k = some v := by
  induction m with
  | nil => simp [alistGet, alistSet]
  | cons hd tl ih =>
      obtain ⟨k', v'⟩ := hd
      by_cases h : k' = k <;> simp [alistGet, alistSet, h, ih]

theorem alistGet_set_ne (m : List (κ × α)) (k k' : κ) (v : α) (h : k ≠ k') :
    alistGet (alistSet m k v) k' = alistGet m k' := by
  induction m with
  | nil => simp [alistGet, alistSet, h]
  | cons hd tl ih =>
      obtain ⟨k₀, v₀⟩ := hd
      by_cases h₀ : k₀ = k
      · subst h₀; simp [alistGet, alistSet, h]
      · simp only [alistSet, if_neg h₀]
        by_cases h₁ : k₀ = k'
        · simp [alistGet, h₁]
        · simp [alistGet, h₁, ih]

theorem alistGet_eq_none_of_not_mem_keys {m : List (κ × α)} {k : κ}
    (h : k ∉ alistKeys m) : alistGet m k = none := by
  induction m with
  | nil => rfl
  | cons hd tl ih =>
      obtain ⟨k', v'⟩ := hd
      simp only [alistKeys, List.map_cons, List.mem_cons] at h
      push_neg at h
      simp [alistGet, Ne.symm h.1, ih (by simpa [alistKeys] using h.2)]

theorem alistSet_eq_append_of_not_mem_keys {m : List (κ × α)} {k : κ} (v : α)
    (h : k ∉ alistKeys m) : alistSet m k v = m ++ [(k, v)] := by
  induction m with
  | nil => rfl
  | cons hd tl ih =>
      obtain ⟨k', v'⟩ := hd
      simp only [alistKeys, List.map_cons, List.mem_cons] at h
      push_neg at h
      simp [alistSet, Ne.symm h.1, ih (by simpa [alistKeys] using h.2)]

theorem alistKeys_set_of_mem_keys {m : List (κ × α)} {k : κ} (v : α)
    (h : k ∈ alistKeys m) : alistKeys (alistSet m k v) = alistKeys m := by
  induction m with
  | nil => simp [alistKeys] at h
  | cons hd tl ih =>
      obtain ⟨k', v'⟩ := hd
      by_cases h₀ : k' = k
      · simp [alistSet, alistKeys, h₀]
      · simp only [alistKeys, List.map_cons, List.mem_cons] at h
        rcases h with h | h
        · exact absurd h.symm h₀
        · simp only [alistSet, if_neg h₀, alistKeys, List.map_cons, List.cons.injEq, true_and]
          simpa [alistKeys] using ih (by simpa [alistKeys] using h)

theorem alistErase_of_not_mem_keys {m : List (κ × α)} {k : κ}
    (h : k ∉ alistKeys m) : alistErase m k = m := by
  induction m with
  | nil => rfl
  | cons hd tl ih =>
      obtain ⟨k', v'⟩ := hd
      simp only [alistKeys, List.map_cons, List.mem_cons] at h
      push_neg at h
      simp [alistErase, Ne.symm h.1, ih (by simpa [alistKeys] using h.2)]

end AlistLemmas

theorem applyCustom_applyCustom (s : UnifiedStudent) (c₁ c₂ : CustomStudent) :
    applyCustom (applyCustom s c₁) c₂ = applyCustom s c₂ := rfl

theorem foldl_applyCustom_getLast (base : UnifiedStudent) :
    ∀ (l : List CustomStudent) (hl : l ≠ []),
      List.foldl applyCustom base l = applyCustom base (l.getLast hl)
  | [c], _ => rfl
  | c₁ :: c₂ :: rest, _ => by
      rw [List.foldl_cons, foldl_applyCustom_getLast (applyCustom base c₁)
        (c₂ :: rest) (List.cons_ne_nil c₂ rest), applyCustom_applyCustom,
        List.getLast_cons (List.cons_ne_nil c₂ rest)]

theorem mergeStep_fst (m : List (String × UnifiedStudent)) (w w' : List String)
    (c : CustomStudent) : (mergeStep (m, w) c).1 = (mergeStep (m, w') c).1 := by
  simp only [mergeStep]
  split
  · split <;> rfl
  · rfl

theorem mergeStep_snd (m : List (String × UnifiedStudent)) (w : List String)
    (c : CustomStudent) :
    (mergeStep (m, w) c).2 = w ++ (mergeStep (m, []) c).2 := by
  simp only [mergeStep]
  split
  · split <;> simp
  · simp

theorem mergeFoldl_fst (l : List CustomStudent) :
    ∀ (m : List (String × UnifiedStudent)) (w w' : List String),
      (List.foldl mergeStep (m, w) l).1 = (List.foldl mergeStep (m, w') l).1 := by
  induction l with
  | nil => intro m w w'; rfl
  | cons c rest ih =>
      intro m w w'
      rw [List.foldl_cons, List.foldl_cons]
      rcases h₁ : mergeStep (m, w) c with ⟨m₁, w₁⟩
      rcases h₂ : mergeStep (m, w') c with ⟨m₂, w₂⟩
      have : m₁ = m₂ := by
        have := mergeStep_fst m w w' c
        rw [h₁, h₂] at this
        exact this
      subst this
      exact ih m₁ w₁ w₂

theorem mergeFoldl_snd_prefix (l : List CustomStudent) :
    ∀ (m : List (String × UnifiedStudent)) (w : List String),
      ∃ w', (List.foldl mergeStep (m, w) l).2 = w ++ w' := by
  induction l with
  | nil => intro m w; exact ⟨[], by simp⟩
  | cons c rest ih =>
      intro m w
      rw [List.foldl_cons]
      rcases h₁ : mergeStep (m, w) c with ⟨m₁, w₁⟩
      have hsnd := mergeStep_snd m w c
      rw [h₁] at hsnd
      obtain ⟨w'', hw''⟩ := ih m₁ w₁
      refine ⟨(mergeStep (m, []) c).2 ++ w'', ?_⟩
      rw [hw'', show w₁ = w ++ (mergeStep (m, []) c).2 from hsnd, List.append_assoc]

/-- Core merge-tracking lemma: the record at a key that is present in the
working set and is not of the synthetic `DVDOOM_`-prefixed shape evolves
exactly by the custom records carrying that identifier, applied in list
order. -/
theorem mergeFoldl_lookup (l : List CustomStudent) :
    ∀ (m : List (String × UnifiedStudent)) (w : List String) (key : String)
      (base : UnifiedStudent),
      alistGet m key = some base →
      (∀ s : String, key ≠ "DVDOOM_" ++ s) →
      alistGet (List.foldl mergeStep (m, w) l).1 key =
        some (List.foldl applyCustom base (l.filter (targetsKey key))) := by
  induction l with
  | nil => intro m w key base hget _; simpa using hget
  | cons c rest ih =>
      intro m w key base hget hsyn
      rw [List.foldl_cons]
      by_cases ht : idTruthy c.Id
      · by_cases hs : c.Id.getD "" = key
        · have hstep : mergeStep (m, w) c =
              (alistSet m key (applyCustom base c), w) := by
            simp only [mergeStep, if_pos ht, hs, hget]
          rw [hstep, List.filter_cons,
            if_pos (by simp [targetsKey, ht, hs]), List.foldl_cons]
          exact ih _ w key (applyCustom base c) (alistGet_set_self m key _) hsyn
        · rw [List.filter_cons, if_neg (by simp [targetsKey, hs])]
          rcases h₀ : alistGet m (c.Id.getD "") with _ | t
          · have hstep : mergeStep (m, w) c = (m, w ++ [warnMsg (c.Id.getD "")]) := by
              simp only [mergeStep, if_pos ht, h₀]
            rw [hstep]
            exact ih m _ key base hget hsyn
          · have hstep : mergeStep (m, w) c =
                (alistSet m (c.Id.getD "") (applyCustom t c), w) := by
              simp only [mergeStep, if_pos ht, h₀]
            rw [hstep]
            refine ih _ w key base ?_ hsyn
            rw [alistGet_set_ne m _ key _ hs, hget]
      · have ht' : idTruthy c.Id = false := by simpa using ht
        have hstep : mergeStep (m, w) c =
            (alistSet m ("DVDOOM_" ++ toString m.length)
              (applyCustom emptyStudent c), w) := by
          simp only [mergeStep, ht', Bool.false_eq_true, if_false]
        rw [hstep, List.filter_cons, if_neg (by simp [targetsKey, ht'])]
        refine ih _ w key base ?_ hsyn
        rw [alistGet_set_ne m _ key _ (fun h => hsyn _ h.symm), hget]

theorem alistGet_append_left {κ α : Type} [DecidableEq κ]
    {m : List (κ × α)} {k : κ} {v : α} (l : List (κ × α))
    (h : alistGet m k = some v) : alistGet (m ++ l) k = some v := by
  induction m with
  | nil => simp [alistGet] at h
  | cons hd tl ih =>
      obtain ⟨k', v'⟩ := hd
      by_cases h₀ : k' = k
      · simpa [alistGet, h₀] using h
      · simp only [alistGet, if_neg h₀] at h ⊢
        exact ih h

theorem alistErase_of_alistGet_none {κ α : Type} [DecidableEq κ]
    {m : List (κ × α)} {k : κ} (h : alistGet m k = none) : alistErase m k = m := by
  induction m with
  | nil => rfl
  | cons hd tl ih =>
      obtain ⟨k', v'⟩ := hd
      by_cases h₀ : k' = k
      · simp [alistGet, h₀] at h
      · simp only [alistGet, if_neg h₀] at h
        simp [alistErase, h₀, ih h]


/-! ### Claim C1: merge override precedence -/

/-- C1 (amended): the merge processes custom records in the input list's
order, and for an identifier present in the official dataset that is not of
the synthetic `DVDOOM_`-prefixed shape (so that no later identifier-less
custom can allocate the same key over it), the unified record for that
identifier ends with the field values of the last custom record in the list
carrying that identifier. -/
theorem merge_override_precedence
    (official : List (String × UnifiedStudent)) (customs : List CustomStudent)
    (key : String) (base : UnifiedStudent)
    (hget : alistGet official key = some base)
    (hsyn : ∀ s : String, key ≠ "DVDOOM_" ++ s)
    (hl : customs.filter (targetsKey key) ≠ []) :
    ∃ r : UnifiedStudent,
      alistGet (fetchMerge official customs).1 key = some r
      ∧ r.FamilyName = ((customs.filter (targetsKey key)).getLast hl).FamilyName
      ∧ r.PersonalName = ((customs.filter (targetsKey key)).getLast hl).PersonalName
      ∧ r.BirthDay = ((customs.filter (targetsKey key)).getLast hl).BirthDay
      ∧ r.DirectImage = ((customs.filter (targetsKey key)).getLast hl).DirectImage := by
  refine ⟨applyCustom base ((customs.filter (targetsKey key)).getLast hl),
    ?_, rfl, rfl, rfl, rfl⟩
  rw [fetchMerge, mergeFoldl_lookup customs official [] key base hget hsyn,
    foldl_applyCustom_getLast base _ hl]

/-- C1 witness: official record "A" with name "X", two customs carrying
identifier "A" with names "Y" then "Z"; the unified record for "A" has
family name "Z". -/
theorem merge_override_precedence_witness :
    ∃ r : UnifiedStudent,
      alistGet (fetchMerge
          [("A", ⟨some "X", none, none, none, some "A"⟩)]
          [⟨some "A", some "Y", none, none, none⟩,
           ⟨some "A", some "Z", none, none, none⟩]).1 "A" = some r
      ∧ r.FamilyName = some "Z" := by
  obtain ⟨r, hr, h₁, -, -, -⟩ := merge_override_precedence
    [("A", ⟨some "X", none, none, none, some "A"⟩)]
    [⟨some "A", some "Y", none, none, none⟩,
     ⟨some "A", some "Z", none, none, none⟩]
    "A" ⟨some "X", none, none, none, some "A"⟩ (by decide)
    (by
      intro s h
      have h2 := congrArg String.length h
      rw [String.length_append] at h2
      have hA : ("A" : String).length = 1 := rfl
      have hD : ("DVDOOM_" : String).length = 7 := rfl
      omega)
    (by decide)
  exact ⟨r, hr, by rw [h₁]; rfl⟩

/-- C1 counterexample: with official dataset keyed "DVDOOM_1" (one record,
name "X") and customs carrying identifier "DVDOOM_1" with names "Y" then "Z"
followed by one identifier-less custom named "W", the identifier-less custom
is allocated the synthetic key "DVDOOM_1" (one key present at that moment)
and clobbers the record, so the unified record for "DVDOOM_1" ends with
family name "W", not the name "Z" of the last custom carrying that
identifier, refuting the claim's universally quantified statement. -/
theorem merge_override_precedence_counterexample :
    ((alistGet (fetchMerge
        [("DVDOOM_1", ⟨some "X", some "P", some "1/1", none, some "DVDOOM_1"⟩)]
        [⟨some "DVDOOM_1", some "Y", some "P", some "1/1", none⟩,
         ⟨some "DVDOOM_1", some "Z", some "P", some "1/1", none⟩,
         ⟨none, some "W", some "P", some "2/2", none⟩]).1
      "DVDOOM_1").map UnifiedStudent.FamilyName = some (some "W"))
    ∧ some (some "W") ≠ some (some ("Z" : String)) := by
  exact ⟨by decide, by decide⟩

/-! ### Claim C2: merge addition -/

/-- C2 (amended): an identifier-less custom record is inserted under the
synthetic key `"DVDOOM_" ++ n` where `n` is the current number of keys;
provided that key is not already present (which the code does not check),
the insertion appends a brand-new record populated only from the custom
fields, leaves every existing record readable unchanged, and keeps the keys
of the working set distinct. -/
theorem merge_addition
    (m : List (String × UnifiedStudent)) (w : List String) (c : CustomStudent)
    (hid : idTruthy c.Id = false)
    (hfresh : ("DVDOOM_" ++ toString m.length) ∉ alistKeys m) :
    mergeStep (m, w) c
      = (m ++ [("DVDOOM_" ++ toString m.length, applyCustom emptyStudent c)], w)
    ∧ (∀ (k : String) (v : UnifiedStudent),
        alistGet m k = some v → alistGet (mergeStep (m, w) c).1 k = some v)
    ∧ ((alistKeys m).Nodup → (alistKeys (mergeStep (m, w) c).1).Nodup) := by
  have hstep : mergeStep (m, w) c
      = (alistSet m ("DVDOOM_" ++ toString m.length)
          (applyCustom emptyStudent c), w) := by
    simp only [mergeStep, hid, Bool.false_eq_true, if_false]
  have happ := alistSet_eq_append_of_not_mem_keys
    (m := m) (applyCustom emptyStudent c) hfresh
  refine ⟨by rw [hstep, happ], ?_, ?_⟩
  · intro k v hv
    rw [hstep]
    simpa [happ] using alistGet_append_left
      [("DVDOOM_" ++ toString m.length, applyCustom emptyStudent c)] hv
  · intro hnd
    rw [hstep]
    simp only [happ, alistKeys, List.map_append, List.map_cons, List.map_nil]
    simp only [alistKeys] at hnd hfresh
    simp [List.nodup_append, hnd, hfresh]

/-- C2 witness: a working set with the single official key "10000" and an
identifier-less custom named "New": the custom is appended under the fresh
synthetic key "DVDOOM_1" and the official record stays readable. -/
theorem merge_addition_witness :
    mergeStep ([("10000", ⟨some "Off", none, some "1/1", none, some "10000"⟩)], [])
        ⟨none, some "New", none, some "2/2", none⟩
      = ([("10000", ⟨some "Off", none, some "1/1", none, some "10000"⟩),
          ("DVDOOM_1", ⟨some "New", none, some "2/2", none, none⟩)], [])
    ∧ (alistKeys (mergeStep
        ([("10000", ⟨some "Off", none, some "1/1", none, some "10000"⟩)], [])
        ⟨none, some "New", none, some "2/2", none⟩).1).Nodup := by
  have h := merge_addition
    [("10000", ⟨some "Off", none, some "1/1", none, some "10000"⟩)] []
    ⟨none, some "New", none, some "2/2", none⟩ (by decide) (by decide)
  exact ⟨h.1.trans (by decide), h.2.2 (by decide)⟩

/-- C2 counterexample: official dataset with the single key "DVDOOM_1"; one
identifier-less custom named "Bob" is allocated the synthetic key
"DVDOOM_1" (one key present), which is *not* unique against the current
keys: the official record is overwritten and the working set still has a
single record, refuting "never overwrites any existing record". -/
theorem merge_addition_counterexample :
    (fetchMerge [("DVDOOM_1", ⟨some "Alice", some "Smith", some "3/5", none, some "DVDOOM_1"⟩)]
        [⟨none, some "Bob", some "Jones", some "4/6", none⟩]).1
      = [("DVDOOM_1", ⟨some "Bob", some "Jones", some "4/6", none, none⟩)]
    ∧ (⟨some "Bob", some "Jones", some "4/6", none, none⟩ : UnifiedStudent)
        ≠ ⟨some "Alice", some "Smith", some "3/5", none, some "DVDOOM_1"⟩ := by
  exact ⟨by decide, by decide⟩

/-! ### Claim C3: unknown-reference skip -/

/-- C3 (confirmed): a custom record whose (truthy) identifier matches no key
of the working set at the moment it is processed is skipped — the unified
working set is the same as if the record were absent from the custom list —
and the reference warning for it is logged. -/
theorem unknown_reference_skip
    (official : List (String × UnifiedStudent)) (pre post : List CustomStudent)
    (c : CustomStudent) (hid : idTruthy c.Id = true)
    (hmiss : alistGet (fetchMerge official pre).1 (c.Id.getD "") = none) :
    (fetchMerge official (pre ++ c :: post)).1 = (fetchMerge official (pre ++ post)).1
    ∧ warnMsg (c.Id.getD "") ∈ (fetchMerge official (pre ++ c :: post)).2 := by
  rcases hP : fetchMerge official pre with ⟨m, w⟩
  have hm : alistGet m (c.Id.getD "") = none := by
    rw [hP] at hmiss; exact hmiss
  have hstep : mergeStep (m, w) c = (m, w ++ [warnMsg (c.Id.getD "")]) := by
    simp only [mergeStep, hid, if_true, hm]
  have hsplit : fetchMerge official (pre ++ c :: post)
      = List.foldl mergeStep (m, w ++ [warnMsg (c.Id.getD "")]) post := by
    rw [fetchMerge, List.foldl_append, ← fetchMerge, hP, List.foldl_cons, hstep]
  have hsplit' : fetchMerge official (pre ++ post)
      = List.foldl mergeStep (m, w) post := by
    rw [fetchMerge, List.foldl_append, ← fetchMerge, hP]
  constructor
  · rw [hsplit, hsplit']
    exact mergeFoldl_fst post m _ w
  · rw [hsplit]
    obtain ⟨w', hw'⟩ := mergeFoldl_snd_prefix post m (w ++ [warnMsg (c.Id.getD "")])
    rw [hw']
    simp

/-- C3 witness: one official record "A"; a custom carrying the unknown
identifier "unknown-999" leaves the working set exactly as without it and
its warning is logged. -/
theorem unknown_reference_skip_witness :
    (fetchMerge [("A", ⟨some "X", none, some "1/1", none, some "A"⟩)]
        ([] ++ (⟨some "unknown-999", some "Q", none, none, none⟩ : CustomStudent) :: [])).1
      = (fetchMerge [("A", ⟨some "X", none, some "1/1", none, some "A"⟩)] ([] ++ [])).1
    ∧ warnMsg "unknown-999"
        ∈ (fetchMerge [("A", ⟨some "X", none, some "1/1", none, some "A"⟩)]
            ([] ++ (⟨some "unknown-999", some "Q", none, none, none⟩ : CustomStudent) :: [])).2 := by
  exact unknown_reference_skip
    [("A", ⟨some "X", none, some "1/1", none, some "A"⟩)] [] []
    ⟨some "unknown-999", some "Q", none, none, none⟩ (by decide) (by decide)


/-! ### Indexer lemmas -/

theorem mem_name_addImage {l : List DisplayEntry} {n i x : String}
    (h : x ∈ (addImage l n i).map DisplayEntry.name) :
    x ∈ l.map DisplayEntry.name ∨ x = n := by
  induction l with
  | nil => simpa [addImage] using h
  | cons e rest ih =>
      by_cases he : e.name = n
      · left
        simp only [addImage, if_pos he] at h
        rcases (by simpa using h) with h₀ | h₀
        · split at h₀ <;> simp [h₀]
        · simp [h₀]
      · simp only [addImage, if_neg he, List.map_cons, List.mem_cons] at h
        rcases h with h₀ | h₀
        · exact Or.inl (by simp [h₀])
        · rcases ih h₀ with h₁ | h₁
          · exact Or.inl (by simp [h₁])
          · exact Or.inr h₁

theorem addImage_names_nodup {l : List DisplayEntry} (n i : String)
    (h : (l.map DisplayEntry.name).Nodup) :
    ((addImage l n i).map DisplayEntry.name).Nodup := by
  induction l with
  | nil => simp [addImage]
  | cons e rest ih =>
      simp only [List.map_cons, List.nodup_cons] at h
      by_cases he : e.name = n
      · simp only [addImage, if_pos he, List.map_cons]
        have hname : (if i ∈ e.images then e
            else { e with images := e.images ++ [i] }).name = e.name := by
          split <;> rfl
        rw [hname]
        exact List.nodup_cons.2 h
      · simp only [addImage, if_neg he, List.map_cons, List.nodup_cons]
        refine ⟨fun hmem => ?_, ih h.2⟩
        rcases mem_name_addImage hmem with h₁ | h₁
        · exact h.1 h₁
        · exact he h₁

theorem addImage_images_nodup {l : List DisplayEntry} (n i : String)
    (h : ∀ e ∈ l, e.images.Nodup) :
    ∀ e ∈ addImage l n i, e.images.Nodup := by
  induction l with
  | nil =>
      intro e he
      simp only [addImage, List.mem_singleton] at he
      simp [he]
  | cons e₀ rest ih =>
      intro e he
      by_cases he₀ : e₀.name = n
      · simp only [addImage, if_pos he₀, List.mem_cons] at he
        rcases he with h₁ | h₁
        · subst h₁
          split
          · exact h e₀ (by simp)
          · rename_i hni
            simpa [List.nodup_append] using
              And.intro (h e₀ (by simp)) hni
        · exact h e (by simp [h₁])
      · simp only [addImage, if_neg he₀, List.mem_cons] at he
        rcases he with h₁ | h₁
        · exact h e (by simp [h₁])
        · exact ih (fun e' he' => h e' (by simp [he'])) e h₁

theorem indexStep_of_parse_none {acc : Buckets} {s : UnifiedStudent}
    (h : parseBirthday s.BirthDay = none) : indexStep acc s = acc := by
  simp only [indexStep, h]

theorem getBucket_indexStep_same {acc : Buckets} {s : UnifiedStudent}
    {month day : Nat} (h : parseBirthday s.BirthDay = some (month, day)) :
    getBucket (indexStep acc s) month day
      = addImage (getBucket acc month day) (displayName s) (imageOf s) := by
  simp only [indexStep, h, getBucket]
  rw [alistGet_set_self]
  simp only [Option.getD_some]
  rw [alistGet_set_self]
  simp [getBucket]

theorem getBucket_indexStep_other {acc : Buckets} {s : UnifiedStudent}
    {month day m' d' : Nat} (h : parseBirthday s.BirthDay = some (month, day))
    (hne : m' ≠ month ∨ d' ≠ day) :
    getBucket (indexStep acc s) m' d' = getBucket acc m' d' := by
  by_cases hm : m' = month
  · rcases hne with hne | hne
    · exact absurd hm hne
    · subst hm
      simp only [indexStep, h, getBucket]
      rw [alistGet_set_self]
      simp only [Option.getD_some]
      rw [alistGet_set_ne _ _ _ _ (fun hd => hne hd.symm)]
  · simp only [indexStep, h, getBucket]
    rw [alistGet_set_ne _ _ _ _ (fun hd => hm hd.symm)]

theorem foldl_indexStep_good (students : List UnifiedStudent) :
    ∀ acc : Buckets,
      (∀ m d, ((getBucket acc m d).map DisplayEntry.name).Nodup
        ∧ ∀ e ∈ getBucket acc m d, e.images.Nodup) →
      ∀ m d,
        ((getBucket (List.foldl indexStep acc students) m d).map DisplayEntry.name).Nodup
        ∧ ∀ e ∈ getBucket (List.foldl indexStep acc students) m d, e.images.Nodup := by
  induction students with
  | nil => intro acc hacc; exact hacc
  | cons s rest ih =>
      intro acc hacc
      rw [List.foldl_cons]
      refine ih (indexStep acc s) ?_
      intro m d
      rcases hp : parseBirthday s.BirthDay with _ | ⟨month, day⟩
      · rw [indexStep_of_parse_none hp]; exact hacc m d
      · by_cases hsame : m = month ∧ d = day
        · obtain ⟨rfl, rfl⟩ := hsame
          rw [getBucket_indexStep_same hp]
          exact ⟨addImage_names_nodup _ _ (hacc m d).1,
            addImage_images_nodup _ _ (hacc m d).2⟩
        · rw [getBucket_indexStep_other hp (by tauto)]
          exact hacc m d

/-! ### Claim C4: bucket dedup -/

/-- C4 (confirmed): in the index produced from any unified record set, within
any one (month, day) bucket no two display entries share the same name, every
entry's image list is duplicate-free, and on the claim's example — three
records named "Alice Smith" dated "3/5" with images img1, img2 and img1 again
— the bucket holds one entry with image list [img1, img2] in insertion
order. -/
theorem bucket_dedup :
    (∀ (students : List UnifiedStudent) (month day : Nat),
      ((getBucket (birthdayIndex students) month day).map DisplayEntry.name).Nodup
      ∧ ∀ e ∈ getBucket (birthdayIndex students) month day, e.images.Nodup)
    ∧ getBucket (birthdayIndex
        [⟨some "Alice", some "Smith", some "3/5", some "img1", some "1"⟩,
         ⟨some "Alice", some "Smith", some "3/5", some "img2", some "2"⟩,
         ⟨some "Alice", some "Smith", some "3/5", some "img1", some "3"⟩]) 3 5
      = [⟨"Alice Smith", ["img1", "img2"]⟩] := by
  constructor
  · intro students month day
    exact foldl_indexStep_good students []
      (fun m d => by simp [getBucket, alistGet]) month day
  · decide

/-- C4 witness: the general dedup invariant evaluated on the example bucket:
its name list and the entry's image list are duplicate-free. -/
theorem bucket_dedup_witness :
    ((getBucket (birthdayIndex
        [⟨some "Alice", some "Smith", some "3/5", some "img1", some "1"⟩,
         ⟨some "Alice", some "Smith", some "3/5", some "img2", some "2"⟩,
         ⟨some "Alice", some "Smith", some "3/5", some "img1", some "3"⟩]) 3 5).map
      DisplayEntry.name).Nodup
    ∧ (⟨"Alice Smith", ["img1", "img2"]⟩ : DisplayEntry).images.Nodup := by
  refine ⟨(bucket_dedup.1 _ 3 5).1, ?_⟩
  exact (bucket_dedup.1
    [⟨some "Alice", some "Smith", some "3/5", some "img1", some "1"⟩,
     ⟨some "Alice", some "Smith", some "3/5", some "img2", some "2"⟩,
     ⟨some "Alice", some "Smith", some "3/5", some "img1", some "3"⟩] 3 5).2
    ⟨"Alice Smith", ["img1", "img2"]⟩ (by rw [bucket_dedup.2]; decide)

/-! ### Claim C5: date parsing and bucket ranges -/

/-- C5 (amended): the indexer parses each record's date field by searching
for the first substring of the form digits-slash-digits (one or more digits
on each side, with no length bound and no anchoring); records whose date
field is absent or has no such substring are silently skipped, and a record
parsing as (month, day) lands in bucket [month][day] with no restriction of
months to 1–12 or days to 1–31. -/
theorem date_parse_and_buckets
    (acc : Buckets) (s : UnifiedStudent) :
    (s.BirthDay = none → indexStep acc s = acc)
    ∧ (parseBirthday s.BirthDay = none → indexStep acc s = acc)
    ∧ (∀ month day : Nat, parseBirthday s.BirthDay = some (month, day) →
        getBucket (indexStep acc s) month day
          = addImage (getBucket acc month day) (displayName s) (imageOf s)) := by
  refine ⟨fun h => ?_, fun h => indexStep_of_parse_none h,
    fun month day h => getBucket_indexStep_same h⟩
  exact indexStep_of_parse_none (by rw [h]; rfl)

/-- C5 witness: a record with no birthday field is skipped, and the record
with date field "123/456" lands in bucket [123][456]. -/
theorem date_parse_and_buckets_witness :
    indexStep [] ⟨some "F", some "P", none, some "i", none⟩ = []
    ∧ getBucket (indexStep [] ⟨some "F", some "P", some "123/456", some "i", none⟩) 123 456
      = addImage (getBucket [] 123 456)
          (displayName ⟨some "F", some "P", some "123/456", some "i", none⟩)
          (imageOf ⟨some "F", some "P", some "123/456", some "i", none⟩) := by
  exact ⟨(date_parse_and_buckets [] _).1 rfl,
    (date_parse_and_buckets [] _).2.2 123 456 (by decide)⟩

/-- C5 counterexample: a record whose date field is "123/456" — three-digit
components, month far above 12 and day far above 31 — is not skipped: the
produced index has a populated bucket at [123][456], refuting both the
"1–2 digit integers" parsing pattern and the claim that the index maps only
months 1–12 to days 1–31. -/
theorem date_parse_and_buckets_counterexample :
    getBucket (birthdayIndex [⟨some "F", some "P", some "123/456", some "i", none⟩]) 123 456
      = [⟨"F P", ["i"]⟩]
    ∧ ¬ (123 ≤ 12) ∧ ¬ (456 ≤ 31) := by
  exact ⟨by decide, by decide, by decide⟩


/-! ### Cache lemmas -/

theorem fetchFresh_fetched {P : Type} (cache : List (String × CacheEntry P))
    (key : String) (now : Int) (response : Except Unit (Response P)) :
    (fetchFresh cache key now response).fetched = true := by
  rcases response with u | r
  · rfl
  · simp only [fetchFresh]
    split
    · rcases hb : r.body with _ | d <;> simp [hb]
    · rfl

/-- With caching enabled, whenever no valid entry is present (a miss, or an
entry at or past the TTL) the call reduces to a fresh fetch over the cache
with the key evicted. -/
theorem cachedFetch_load {P : Type} (cache : List (String × CacheEntry P))
    (key : String) (ttl now : Int) (response : Except Unit (Response P))
    (hload : alistGet cache key = none
      ∨ ∃ e : CacheEntry P, alistGet cache key = some e ∧ ttl ≤ now - e.timestamp) :
    cachedFetch true cache key ttl now response
      = fetchFresh (alistErase cache key) key now response := by
  rcases hload with hnone | ⟨e, hget, hexp⟩
  · simp only [cachedFetch, Bool.not_true, Bool.false_eq_true, if_false, hnone,
      alistErase_of_alistGet_none hnone]
  · simp only [cachedFetch, Bool.not_true, Bool.false_eq_true, if_false, hget,
      if_neg (not_lt.2 hexp)]

/-! ### Claim C6: cache TTL boundary -/

/-- C6 (confirmed): with caching enabled, a stored entry whose age
`now - timestamp` is strictly below the TTL is returned without fetching;
an entry whose age is at or past the TTL (including exactly equal) is
evicted, a fresh fetch runs, and a successful fetch is stored under the
current timestamp and returned. -/
theorem cache_ttl_boundary {P : Type}
    (cache : List (String × CacheEntry P)) (key : String) (ttl now : Int)
    (response : Except Unit (Response P)) (e : CacheEntry P)
    (hget : alistGet cache key = some e) :
    (now - e.timestamp < ttl →
      cachedFetch true cache key ttl now response = ⟨.ok e.data, cache, false⟩)
    ∧ (ttl ≤ now - e.timestamp →
        (cachedFetch true cache key ttl now response).fetched = true
        ∧ ∀ (r : Response P) (d : P), response = .ok r → respOk r = true →
            r.body = some d →
            cachedFetch true cache key ttl now response
              = ⟨.ok d, alistSet (alistErase cache key) key ⟨now, d⟩, true⟩) := by
  constructor
  · intro hfresh
    simp only [cachedFetch, Bool.not_true, Bool.false_eq_true, if_false, hget,
      if_pos hfresh]
  · intro hexp
    have hload := cachedFetch_load cache key ttl now response
      (Or.inr ⟨e, hget, hexp⟩)
    constructor
    · rw [hload]; exact fetchFresh_fetched _ _ _ _
    · intro r d hr hok hbody
      subst hr
      rw [hload]
      simp [fetchFresh, hok, hbody]

/-- C6 witness: an entry stored at instant 0 with TTL one hour: at `now = 100`
the payload 5 is returned without fetching; at `now = 3600000` (age exactly
the TTL) a fresh fetch runs and its payload 9 is stored at the new
timestamp. -/
theorem cache_ttl_boundary_witness :
    cachedFetch true [("k", (⟨0, 5⟩ : CacheEntry Nat))] "k" 3600000 100
        (Except.ok ⟨200, some 9⟩)
      = ⟨.ok 5, [("k", ⟨0, 5⟩)], false⟩
    ∧ cachedFetch true [("k", (⟨0, 5⟩ : CacheEntry Nat))] "k" 3600000 3600000
        (Except.ok ⟨200, some 9⟩)
      = ⟨.ok 9, alistSet (alistErase [("k", ⟨0, 5⟩)] "k") "k" ⟨3600000, 9⟩, true⟩ := by
  refine ⟨(cache_ttl_boundary [("k", ⟨0, 5⟩)] "k" 3600000 100
      (Except.ok ⟨200, some 9⟩) ⟨0, 5⟩ (by decide)).1 (by decide), ?_⟩
  exact ((cache_ttl_boundary [("k", ⟨0, 5⟩)] "k" 3600000 3600000
      (Except.ok ⟨200, some 9⟩) ⟨0, 5⟩ (by decide)).2 (by decide)).2
    ⟨200, some 9⟩ 9 rfl (by decide) rfl

/-! ### Claim C7: non-2xx handling and caching of failures -/

/-- C7 (amended): with caching enabled, a fetched non-2xx response is a
failure carrying the status, and no failed call ever stores anything (the
resulting cache is the input cache with the key evicted, never extended);
with caching globally disabled, however, the response body is parsed and
returned with no status check at all — a non-2xx response with a readable
JSON body is a success — and nothing is ever stored. -/
theorem noncaching_and_failure_behavior {P : Type}
    (cache : List (String × CacheEntry P)) (key : String) (ttl now : Int) :
    (∀ r : Response P, respOk r = false →
      (alistGet cache key = none
        ∨ ∃ e : CacheEntry P, alistGet cache key = some e ∧ ttl ≤ now - e.timestamp) →
      cachedFetch true cache key ttl now (.ok r)
        = ⟨.error (.http r.status), alistErase cache key, true⟩)
    ∧ (∀ (response : Except Unit (Response P)) (err : FetchError),
        (alistGet cache key = none
          ∨ ∃ e : CacheEntry P, alistGet cache key = some e ∧ ttl ≤ now - e.timestamp) →
        (cachedFetch true cache key ttl now response).result = .error err →
        (cachedFetch true cache key ttl now response).cache = alistErase cache key)
    ∧ (∀ response : Except Unit (Response P),
        (cachedFetch false cache key ttl now response).cache = cache
        ∧ (cachedFetch false cache key ttl now response).fetched = true)
    ∧ (∀ r : Response P,
        (cachedFetch false cache key ttl now (.ok r)).result
          = match r.body with | some d => .ok d | none => .error .parse) := by
  refine ⟨?_, ?_, ?_, ?_⟩
  · intro r hok hload
    rw [cachedFetch_load cache key ttl now _ hload]
    simp [fetchFresh, hok]
  · intro response err hload herr
    rw [cachedFetch_load cache key ttl now response hload] at herr ⊢
    rcases response with u | r
    · rfl
    · simp only [fetchFresh] at herr ⊢
      by_cases hok : respOk r = true
      · rcases hb : r.body with _ | d
        · simp [hok, hb]
        · simp [hok, hb] at herr
      · simp [hok]
  · intro response
    rcases response with u | r
    · exact ⟨rfl, rfl⟩
    · constructor <;>
        · simp only [cachedFetch, Bool.not_false, if_true]
          rcases hb : r.body with _ | d <;> simp [hb]
  · intro r
    simp only [cachedFetch, Bool.not_false, if_true]
    rcases hb : r.body with _ | d <;> simp [hb]

/-- C7 witness: enabled, empty cache, a 404 response with a readable body:
the call fails with HttpError 404 and the cache stays empty; disabled, the
same call keeps the cache empty and marks a fetch. -/
theorem noncaching_and_failure_behavior_witness :
    cachedFetch true ([] : List (String × CacheEntry Nat)) "k" 3600000 0
        (Except.ok ⟨404, some 7⟩)
      = ⟨.error (.http 404), alistErase [] "k", true⟩
    ∧ (cachedFetch false ([] : List (String × CacheEntry Nat)) "k" 3600000 0
        (Except.ok ⟨404, some 7⟩)).cache = [] := by
  exact ⟨(noncaching_and_failure_behavior [] "k" 3600000 0).1 ⟨404, some 7⟩
      (by decide) (Or.inl rfl),
    ((noncaching_and_failure_behavior [] "k" 3600000 0).2.2.1
      (Except.ok ⟨404, some 7⟩)).1⟩

/-- C7 counterexample: with caching globally disabled, a 404 response whose
body parses as JSON is returned as a success — the call does not raise and
the status is never consulted — refuting the claim that a non-2xx response
is a failure "including when caching is globally disabled". -/
theorem noncaching_and_failure_behavior_counterexample :
    respOk (⟨404, some 7⟩ : Response Nat) = false
    ∧ cachedFetch false ([] : List (String × CacheEntry Nat)) "k" 3600000 0
        (Except.ok ⟨404, some 7⟩)
      = ⟨.ok 7, [], true⟩ := by
  exact ⟨by decide, rfl⟩

/-! ### Claim C8: countdown display text and duration format -/

/-- C8 (confirmed): reading the claim's three cases in order (they are
mutually exclusive and exhaustive for any window with start ≤ end), the
display text is "Starts in: " plus the formatted remaining time to start
when now < start, "Time Left: " plus the formatted remaining time to end
when start ≤ now < end, and exactly "Event Ended" once now is at or past
both bounds; the duration format floor-decomposes milliseconds into days,
hours and minutes, omits the day component exactly when it is zero, always
shows hours and minutes, and in particular maps 90000 to "0h 1m" and
90000000 to "1d 1h 0m". -/
theorem countdown_display :
    (∀ c s e : Int, c < s →
      getTimerDisplayText c s e = "Starts in: " ++ formatTimeRemaining (s - c).toNat)
    ∧ (∀ c s e : Int, s ≤ c → c < e →
      getTimerDisplayText c s e = "Time Left: " ++ formatTimeRemaining (e - c).toNat)
    ∧ (∀ c s e : Int, s ≤ c → e ≤ c → getTimerDisplayText c s e = "Event Ended")
    ∧ formatTimeRemaining 90000 = "0h 1m"
    ∧ formatTimeRemaining 90000000 = "1d 1h 0m"
    ∧ (∀ ms : Nat, ms < 86400000 →
        formatTimeRemaining ms
          = toString (ms / 3600000) ++ "h " ++ toString (ms % 3600000 / 60000) ++ "m")
    ∧ (∀ ms : Nat, 86400000 ≤ ms →
        formatTimeRemaining ms
          = toString (ms / 86400000) ++ "d " ++ toString (ms % 86400000 / 3600000)
            ++ "h " ++ toString (ms % 3600000 / 60000) ++ "m") := by
  refine ⟨?_, ?_, ?_, by decide, by decide, ?_, ?_⟩
  · intro c s e h
    simp only [getTimerDisplayText, if_pos h]
  · intro c s e h₁ h₂
    simp only [getTimerDisplayText, if_neg (not_lt.2 h₁), if_pos h₂]
  · intro c s e h₁ h₂
    simp only [getTimerDisplayText, if_neg (not_lt.2 h₁), if_neg (not_lt.2 h₂)]
  · intro ms h
    have hdays : ms / (1000 * 60 * 60 * 24) = 0 := Nat.div_eq_of_lt (by omega)
    have hmod : ms % (1000 * 60 * 60 * 24) = ms := Nat.mod_eq_of_lt (by omega)
    simp only [formatTimeRemaining, hdays, hmod, gt_iff_lt, lt_self_iff_false,
      if_false]
    norm_num [String.append_assoc]
  · intro ms h
    have hdays : 0 < ms / (1000 * 60 * 60 * 24) :=
      Nat.div_pos (by omega) (by norm_num)
    simp only [formatTimeRemaining, gt_iff_lt, if_pos hdays]

/-- C8 witness: the three display branches and the duration format evaluated
at concrete instants (window 10–20). -/
theorem countdown_display_witness :
    getTimerDisplayText 0 10 20 = "Starts in: " ++ formatTimeRemaining (10 - 0 : Int).toNat
    ∧ getTimerDisplayText 15 10 20 = "Time Left: " ++ formatTimeRemaining (20 - 15 : Int).toNat
    ∧ getTimerDisplayText 20 10 20 = "Event Ended"
    ∧ formatTimeRemaining 90000 = toString (90000 / 3600000) ++ "h "
        ++ toString (90000 % 3600000 / 60000) ++ "m"
    ∧ formatTimeRemaining 90000000 = toString (90000000 / 86400000) ++ "d "
        ++ toString (90000000 % 86400000 / 3600000) ++ "h "
        ++ toString (90000000 % 3600000 / 60000) ++ "m" := by
  exact ⟨countdown_display.1 0 10 20 (by decide),
    countdown_display.2.1 15 10 20 (by decide) (by decide),
    countdown_display.2.2.1 20 10 20 (by decide) (by decide),
    countdown_display.2.2.2.2.2.1 90000 (by decide),
    countdown_display.2.2.2.2.2.2 90000000 (by decide)⟩


/-! ### Timer loop lemmas -/

theorem eventsTimerTick_absent (display : String) (st : TimerLoopState)
    (h : st.active = true) :
    eventsTimerTick false display st = ⟨true, st.invocations + 1, st.tracked⟩ := by
  cases st
  simp only at h
  subst h
  rfl

theorem runTicks_events_absent (display : String) :
    ∀ (n : Nat) (st : TimerLoopState), st.active = true →
      runTicks eventsTimerTick false display n st
        = ⟨true, st.invocations + n, st.tracked⟩ := by
  intro n
  induction n with
  | zero => intro st h; cases st; simp only at h; subst h; rfl
  | succ n ih =>
      intro st h
      rw [runTicks, eventsTimerTick_absent display st h,
        ih ⟨true, st.invocations + 1, st.tracked⟩ rfl]
      simp only [TimerLoopState.mk.injEq, true_and, and_true]
      omega

theorem runTicks_utils_inactive (targetPresent : Bool) (display : String) :
    ∀ (n : Nat) (st : TimerLoopState), st.active = false →
      runTicks utilsTimerTick targetPresent display n st = st := by
  intro n
  induction n with
  | zero => intro st _; rfl
  | succ n ih =>
      intro st h
      rw [runTicks, show utilsTimerTick targetPresent display st = st by
        cases st; simp only at h; subst h; rfl]
      exact ih st h

/-! ### Claim C9: timer self-cleanup on missing target -/

/-- C9 (code bug): what the code actually does once the display target is
missing at a tick.  In Events2.js, `updateEventTimer`'s missing-target path
evaluates `timerIds`, which is not in scope there, so the tick throws a
`ReferenceError` instead of completing `cleanupTimer`: the interval is never
cleared, the handle is never removed from the tracking array, and the update
function keeps being invoked on every later tick (`n` ticks with the target
absent leave the timer active, tracked, and invoked `n` times).  In Utils.js,
`createCountdownTimer`'s tick does clear its interval on the first tick that
finds the element missing — after exactly that one further invocation — but
the handle is never removed from the `timerIds` tracking array. -/
theorem timer_missing_target_behavior :
    (∀ display : String, updateEventTimerCall false display = .refError none)
    ∧ (∀ (n : Nat) (display : String),
        runTicks eventsTimerTick false display n initialTimerState
          = ⟨true, n, true⟩)
    ∧ (∀ (n : Nat) (display : String),
        runTicks utilsTimerTick false display (n + 1) initialTimerState
          = ⟨false, 1, true⟩) := by
  refine ⟨fun display => rfl, ?_, ?_⟩
  · intro n display
    simpa [initialTimerState] using runTicks_events_absent display n initialTimerState rfl
  · intro n display
    rw [runTicks, show utilsTimerTick false display initialTimerState
        = ⟨false, 1, true⟩ from rfl]
    exact runTicks_utils_inactive false display n ⟨false, 1, true⟩ rfl

/-! ### Claim C10: expiry boundary, seconds scaling and event skipping -/

theorem processEventPair_foldl_filter (render : EventData → String) (now : Int) :
    ∀ (entries : List EventData) (acc : String),
      List.foldl (fun acc e => if hasExpired e.endTime now then acc
          else acc ++ render e) acc entries
        = List.foldl (fun acc e => if hasExpired e.endTime now then acc
            else acc ++ render e) acc
            (entries.filter (fun ev => !(hasExpired ev.endTime now))) := by
  intro entries
  induction entries with
  | nil => intro acc; rfl
  | cons e rest ih =>
      intro acc
      rcases hexp : hasExpired e.endTime now with _ | _
      · rw [List.foldl_cons, if_neg (by simp [hexp]),
          List.filter_cons_of_pos (by simp [hexp]), List.foldl_cons,
          if_neg (by simp [hexp])]
        exact ih (acc ++ render e)
      · rw [List.foldl_cons, if_pos (by simp [hexp]),
          List.filter_cons_of_neg (by simp [hexp])]
        exact ih acc

/-- C10 (confirmed): `hasExpired` on a numeric end time treats the boundary
inclusively — it is true exactly when the resolved end instant is at or
before `now`, so an end equal to the present instant is already expired; an
end below 10^12 is scaled by 1000 as Unix seconds, any other numeric end is
taken as milliseconds; and `processEventPair` renders exactly the non-expired
entries — every event with `hasExpired` true contributes nothing. -/
theorem expiry_and_skipping :
    (∀ endTime now : Int, endTime < 10 ^ 12 →
      (hasExpired endTime now = true ↔ endTime * 1000 ≤ now))
    ∧ (∀ endTime now : Int, 10 ^ 12 ≤ endTime →
      (hasExpired endTime now = true ↔ endTime ≤ now))
    ∧ (∀ endTime : Int, 10 ^ 12 ≤ endTime → hasExpired endTime endTime = true)
    ∧ (∀ endTime : Int, endTime < 10 ^ 12 →
        hasExpired endTime (endTime * 1000) = true)
    ∧ (∀ (render : EventData → String) (entries : List EventData) (now : Int),
        processEventPair render entries now
          = processEventPair render
              (entries.filter (fun ev => !(hasExpired ev.endTime now))) now) := by
  refine ⟨?_, ?_, ?_, ?_, ?_⟩
  · intro endTime now h
    simp only [hasExpired]
    rw [if_pos h]
    simp only [decide_eq_true_eq]
  · intro endTime now h
    simp only [hasExpired]
    rw [if_neg (not_lt.2 h)]
    simp only [decide_eq_true_eq]
  · intro endTime h
    simp only [hasExpired]
    rw [if_neg (not_lt.2 h)]
    simp
  · intro endTime h
    simp only [hasExpired]
    rw [if_pos h]
    simp
  · intro render entries now
    exact processEventPair_foldl_filter render now entries ""

/-- C10 witness: an end time of 5 (seconds) resolves to instant 5000 and is
expired exactly there; an end time of 10^12 ms is expired at instant 10^12;
and a list with one expired event renders the same as with it filtered
away. -/
theorem expiry_and_skipping_witness :
    hasExpired 5 (5 * 1000) = true
    ∧ hasExpired (10 ^ 12) (10 ^ 12) = true
    ∧ processEventPair EventData.payload [⟨5, "gone"⟩] 5000
      = processEventPair EventData.payload
          ([⟨5, "gone"⟩].filter (fun ev => !(hasExpired ev.endTime 5000))) 5000 := by
  exact ⟨expiry_and_skipping.2.2.2.1 5 (by decide),
    expiry_and_skipping.2.2.1 (10 ^ 12) (by decide),
    expiry_and_skipping.2.2.2.2 EventData.payload [⟨5, "gone"⟩] 5000⟩

end Mimori
